import Mathlib

/-!
Shallow embedding of `synth/src/cli/import_utils.rs`: the import pipeline that
converts relational-database metadata (tables, columns, primary keys, foreign
keys, sampled rows) into a schema-generation namespace.

The pipeline code itself (`build_namespace_import` and the four
`populate_namespace_*` phases, `Collection::try_from`,
`FieldContentWrapper::try_from`) is translated directly from the source.
The `synth_core` data model it manipulates (`Namespace`, `Content`,
`FieldRef`, `Name`, the `OptionalMergeStrategy` merge) is not part of the
given sources, so those definitions are modelled from the spec, as noted on
each.
-/

namespace SynthImport

/-- Error taxonomy of the import (spec §7): composite primary keys,
unresolvable field paths, invalid identifiers, capability failures,
duplicate collection insertion, merge failures. -/
inductive Err where
  | unsupportedSchema (count : Nat) (table : String)
  | notFound (what : String)
  | invalidIdentifier (what : String)
  | capability (what : String)
  | duplicateCollection (name : String)
  | mergeFailure (what : String)
deriving DecidableEq, Repr

/-- Modelled from the spec: a field path `<collection>.content.<field>`
(spec §3: "a dotted address of the form `<collection>.content.<field>`";
always exactly three segments with `content` in the middle, so it is
determined by the collection name and the field name). `FieldRef` itself
lives in `synth_core`, outside the given sources. -/
structure FieldRef where
  collection : String
  field : String
deriving DecidableEq, Repr

/-- Modelled from the spec: "a collection name and every field name must be
a valid identifier" (spec §3). An identifier is nonempty and made of
alphanumeric characters and underscores (in particular it contains no dot,
so formatting `t.content.c` and re-parsing recovers `t` and `c`). -/
def isValidIdent (s : String) : Bool :=
  !s.data.isEmpty && s.data.all (fun ch => ch.isAlphanum || ch == '_')

/-- Modelled from the spec: `FieldRef::new` applied to the formatted string
`<table>.content.<column>` (source lines 71-74, 90-92). Parsing succeeds
exactly when both names are valid identifiers, and then yields the
three-segment path, i.e. the pair of the two names. -/
def fieldRefNew (table column : String) : Except Err FieldRef :=
  if isValidIdent table && isValidIdent column then
    .ok ⟨table, column⟩
  else
    .error (.invalidIdentifier (table ++ ".content." ++ column))

/-- Modelled from the spec: `Name::from_str` (source lines 52, 112):
a collection name must be a valid identifier. -/
def nameFromStr (s : String) : Except Err String :=
  if isValidIdent s then .ok s else .error (.invalidIdentifier s)

/-- Modelled from the spec: the `Content` tree (spec §3). `object` carries
the ordered field list, each field being a name, the `FieldContent`
optional flag and the content node; `array` carries the length node and
the element node; `numberRangeU64` is the `U64::Range` low/high/step node;
`numberIdU64` is the `U64::Id` unique-identifier generator;
`oneOf` is the Alternation; `sameAs` is the Reference; `null` is Null.
Other decoded scalar shapes produced by the external column decoder are
represented by `decodedScalar`, a tag the pipeline never inspects. -/
inductive Content where
  | object (fields : List (String × Bool × Content))
  | array (length : Content) (element : Content)
  | numberRangeU64 (low high step : Nat)
  | numberIdU64
  | oneOf (variants : List Content)
  | sameAs (ref : FieldRef)
  | null
  | decodedScalar (dataType : String) (maxLength : Option Nat)
deriving Repr

/-- Modelled from the spec: a Namespace is "an ordered mapping from
collection name to a content tree" (spec §3). -/
abbrev Namespace := List (String × Content)

/-- Look a collection up by name (first match). -/
def lookupColl (ns : Namespace) (name : String) : Option Content :=
  match ns with
  | [] => none
  | (n, c) :: rest => if n = name then some c else lookupColl rest name

/-- Replace the content of the named collection, leaving others unchanged. -/
def updateColl (ns : Namespace) (name : String) (c : Content) : Namespace :=
  match ns with
  | [] => []
  | (n, c₀) :: rest =>
    if n = name then (n, c) :: rest else (n, c₀) :: updateColl rest name c

/-- Modelled from the spec: `Namespace::put_collection` (source line 51):
insert a new collection under its name; inserting a name that is already
present is an error. -/
def putCollection (ns : Namespace) (name : String) (c : Content) :
    Except Err Namespace :=
  if (lookupColl ns name).isSome then .error (.duplicateCollection name)
  else .ok (ns ++ [(name, c)])

/-- Find a field by name in an object's field list. -/
def lookupField (fields : List (String × Bool × Content)) (name : String) :
    Option (Bool × Content) :=
  match fields with
  | [] => none
  | (n, o, c) :: rest =>
    if n = name then some (o, c) else lookupField rest name

/-- Replace the content of the named field, keeping its optional flag. -/
def setFieldContent (fields : List (String × Bool × Content)) (name : String)
    (v : Content) : List (String × Bool × Content) :=
  match fields with
  | [] => []
  | (n, o, c) :: rest =>
    if n = name then (n, o, v) :: rest else (n, o, c) :: setFieldContent rest name v

/-- Modelled from the spec: resolving a field path (spec §3: "it must
resolve to the field inside the Object nested one level beneath the
collection's Array wrapper"); the read half of `Namespace::get_s_node_mut`
(source lines 75, 93). -/
def getSNode (ns : Namespace) (f : FieldRef) : Except Err Content :=
  match lookupColl ns f.collection with
  | some (.array _ (.object fields)) =>
    match lookupField fields f.field with
    | some (_, c) => .ok c
    | none => .error (.notFound (f.collection ++ ".content." ++ f.field))
  | _ => .error (.notFound (f.collection ++ ".content." ++ f.field))

/-- Modelled from the spec: the write half of `Namespace::get_s_node_mut`
followed by `*node = ...` (source lines 75-76, 93-94): replace the content
at a field path, failing with a not-found error when the path does not
resolve. -/
def setSNode (ns : Namespace) (f : FieldRef) (v : Content) :
    Except Err Namespace :=
  match lookupColl ns f.collection with
  | some (.array len (.object fields)) =>
    match lookupField fields f.field with
    | some _ =>
      .ok (updateColl ns f.collection
            (.array len (.object (setFieldContent fields f.field v))))
    | none => .error (.notFound (f.collection ++ ".content." ++ f.field))
  | _ => .error (.notFound (f.collection ++ ".content." ++ f.field))

/-- A sampled value (serde_json `Value`; the source converts sampled rows
with `synth_val_to_json` before merging, source line 108). -/
inductive Value where
  | null
  | bool (b : Bool)
  | num (n : Int)
  | str (s : String)
  | arr (vs : List Value)
  | obj (fs : List (String × Value))

/-- `ColumnInfo` from `datasource::relational_datasource`: the fields
the import reads (source lines 151-157). -/
structure ColumnInfo where
  column_name : String
  data_type : String
  is_nullable : Bool
  character_maximum_length : Option Nat
deriving DecidableEq, Repr

/-- A primary-key entry; the import reads only the column name
(source line 73). -/
structure PrimaryKey where
  column_name : String
deriving DecidableEq, Repr

/-- A foreign-key edge (source lines 89-92). -/
structure ForeignKey where
  from_table : String
  from_column : String
  to_table : String
  to_column : String
deriving DecidableEq, Repr

/-- The data-source capabilities the pipeline consumes
(`DataSource + RelationalDataSource`, spec §6), as pure fallible
functions: table listing, column metadata, primary keys, the global
foreign-key list, the external column decoder, seeding, and deterministic
samples. -/
structure DataSource where
  get_table_names : Except Err (List String)
  get_columns_infos : String → Except Err (List ColumnInfo)
  get_primary_keys : String → Except Err (List PrimaryKey)
  get_foreign_keys : Except Err (List ForeignKey)
  decode_to_content : String → Option Nat → Except Err Content
  set_seed : Except Err Unit
  get_deterministic_samples : String → Except Err (List Value)

/-- The merge entry point `Namespace::try_update(OptionalMergeStrategy, name,
values)` (source lines 110-114) is `synth_core` code outside the given
sources; the pipeline is parametrised by it. -/
abbrev MergeFn := Namespace → String → List Value → Except Err Namespace

/-- Modelled from the spec: the contract of `OptionalMergeStrategy` that the
pipeline relies on (spec §4.4: the merge "must not overwrite generator or
reference nodes installed in §4.2/§4.3 with raw literal values"): a
successful merge leaves every field holding a Reference (`sameAs`) or
unique-identifier (`numberIdU64`) node unchanged. -/
def MergePreservesAnnotations (merge : MergeFn) : Prop :=
  ∀ ns t vs ns', merge ns t vs = .ok ns' →
    ∀ f : FieldRef,
      ((∃ r, getSNode ns f = .ok (.sameAs r)) ∨
        getSNode ns f = .ok .numberIdU64) →
      getSNode ns' f = getSNode ns f

/-- The trivial merge: it updates nothing. It satisfies the
`OptionalMergeStrategy` contract and serves as a concrete instantiation. -/
def idMerge : MergeFn := fun ns _ _ => .ok ns

/-- `FieldContentWrapper::try_from((datasource, column_info))` (source
lines 150-170): decode the column's native type; if the column is
nullable wrap the decoded node in a two-variant Alternation with `Null`;
the resulting `FieldContent` always has `optional = false`. Returns the
(optional flag, content) pair of the built `FieldContent`. -/
def fieldContentTryFrom (ds : DataSource) (ci : ColumnInfo) :
    Except Err (Bool × Content) := do
  let content ← ds.decode_to_content ci.data_type ci.character_maximum_length
  let content :=
    if ci.is_nullable then
      Content.oneOf [content, Content.null]
    else content
  pure (false, content)

/-- Insert into an ordered field map: an existing name keeps its position
and gets the new value, a new name is appended (spec §3: "field order
preserved"). -/
def insertField (fields : List (String × Bool × Content)) (name : String)
    (v : Bool × Content) : List (String × Bool × Content) :=
  match fields with
  | [] => [(name, v.1, v.2)]
  | (n, o, c) :: rest =>
    if n = name then (n, v.1, v.2) :: rest
    else (n, o, c) :: insertField rest name v

/-- The field-assembly loop of `Collection::try_from` (source lines
124-132): starting from the accumulated fields, build each column's field
content in order and insert it under the column's name. -/
def buildFieldsAux (ds : DataSource) (acc : List (String × Bool × Content))
    (cols : List ColumnInfo) : Except Err (List (String × Bool × Content)) :=
  match cols with
  | [] => .ok acc
  | ci :: rest => do
    let fc ← fieldContentTryFrom ds ci
    buildFieldsAux ds (insertField acc ci.column_name fc) rest

/-- The field-assembly loop started from the empty object
(`ObjectContent::default()`, source line 124). -/
def buildFields (ds : DataSource) (cols : List ColumnInfo) :
    Except Err (List (String × Bool × Content)) :=
  buildFieldsAux ds [] cols

/-- `Collection::try_from((datasource, column_infos))` (source lines
123-144): assemble the fields into an Object and wrap it in an Array whose
length node is the `U64::Range { low: 1, high: 2, step: 1 }`. -/
def collectionTryFrom (ds : DataSource) (cols : List ColumnInfo) :
    Except Err Content := do
  let fields ← buildFields ds cols
  pure (.array (.numberRangeU64 1 2 1) (.object fields))

/-- `populate_namespace_collections` (source lines 44-58): for each table,
fetch its column metadata, build the collection and insert it under the
table's name. -/
def populate_namespace_collections (ns : Namespace) (tables : List String)
    (ds : DataSource) : Except Err Namespace :=
  match tables with
  | [] => .ok ns
  | t :: rest => do
    let cols ← ds.get_columns_infos t
    let name ← nameFromStr t
    let coll ← collectionTryFrom ds cols
    let ns' ← putCollection ns name coll
    populate_namespace_collections ns' rest ds

/-- The loop body of `populate_namespace_primary_keys` for one table
(source lines 62-78): fetch the table's primary keys; more than one is the
composite-primary-key failure; exactly one replaces the node at
`<table>.content.<pk column>` with the `U64::Id` generator; zero is a
no-op. -/
def primaryKeyStep (ns : Namespace) (t : String) (ds : DataSource) :
    Except Err Namespace := do
  let pks ← ds.get_primary_keys t
  if pks.length > 1 then
    .error (.unsupportedSchema pks.length t)
  else
    match pks.head? with
    | some pk => do
      let f ← fieldRefNew t pk.column_name
      setSNode ns f .numberIdU64
    | none => .ok ns

/-- `populate_namespace_primary_keys` (source lines 60-81): run
`primaryKeyStep` over the tables in order. -/
def populate_namespace_primary_keys (ns : Namespace) (tables : List String)
    (ds : DataSource) : Except Err Namespace :=
  match tables with
  | [] => .ok ns
  | t :: rest => do
    let ns' ← primaryKeyStep ns t ds
    populate_namespace_primary_keys ns' rest ds

/-- The foreign-key loop (source lines 89-95): for each edge, build both
field paths and replace the node at the source path with a `SameAs`
reference to the target path. The target path is only parsed, never
resolved. -/
def linkForeignKeys (ns : Namespace) (fks : List ForeignKey) :
    Except Err Namespace :=
  match fks with
  | [] => .ok ns
  | fk :: rest => do
    let fromField ← fieldRefNew fk.from_table fk.from_column
    let toField ← fieldRefNew fk.to_table fk.to_column
    let ns' ← setSNode ns fromField (.sameAs toField)
    linkForeignKeys ns' rest

/-- `populate_namespace_foreign_keys` (source lines 83-98): fetch the
global foreign-key list and run the linking loop. -/
def populate_namespace_foreign_keys (ns : Namespace) (ds : DataSource) :
    Except Err Namespace := do
  let fks ← ds.get_foreign_keys
  linkForeignKeys ns fks

/-- A data-source interaction of the values phase, for stating when the
seed is set relative to sample fetches. -/
inductive Event where
  | setSeed
  | getSamples (table : String)
deriving DecidableEq, Repr

/-- The per-table loop of `populate_namespace_values` (source lines
104-115): fetch each table's deterministic samples and merge them into the
collection; alongside the result, the list of sample fetches performed. -/
def mergeLoop (merge : MergeFn) (ns : Namespace) (tables : List String)
    (ds : DataSource) : Except Err Namespace × List Event :=
  match tables with
  | [] => (.ok ns, [])
  | t :: rest =>
    match ds.get_deterministic_samples t with
    | .error e => (.error e, [.getSamples t])
    | .ok vs =>
      match merge ns t vs with
      | .error e => (.error e, [.getSamples t])
      | .ok ns' =>
        ((mergeLoop merge ns' rest ds).1,
          .getSamples t :: (mergeLoop merge ns' rest ds).2)

/-- `populate_namespace_values` (source lines 100-118): set the sampling
seed once, then merge each table's samples in order; alongside the result,
the list of data-source interactions performed. -/
def populate_namespace_values (merge : MergeFn) (ns : Namespace)
    (tables : List String) (ds : DataSource) :
    Except Err Namespace × List Event :=
  match ds.set_seed with
  | .error e => (.error e, [.setSeed])
  | .ok _ =>
    ((mergeLoop merge ns tables ds).1,
      .setSeed :: (mergeLoop merge ns tables ds).2)

/-- `build_namespace_import` (source lines 22-42): starting from the empty
namespace, run the four phases in order — collections, primary keys,
foreign keys, values — propagating the first failure. -/
def build_namespace_import (merge : MergeFn) (ds : DataSource) :
    Except Err Namespace := do
  let tables ← ds.get_table_names
  let ns₁ ← populate_namespace_collections [] tables ds
  let ns₂ ← populate_namespace_primary_keys ns₁ tables ds
  let ns₃ ← populate_namespace_foreign_keys ns₂ ds
  (populate_namespace_values merge ns₃ tables ds).1

/-- The target of the last foreign-key edge in the list whose source is
`t.c` — the edge whose `SameAs` node survives the linking loop when
several edges share a source. -/
def lastTargetFor (fks : List ForeignKey) (t c : String) : Option FieldRef :=
  match fks with
  | [] => none
  | fk :: rest =>
    match lastTargetFor rest t c with
    | some r => some r
    | none =>
      if fk.from_table = t && fk.from_column = c then
        some ⟨fk.to_table, fk.to_column⟩
      else none

/-- A column decoder that records the native type and max length it was
given; stands for the external `decode_to_content`. -/
def decode0 : String → Option Nat → Except Err Content :=
  fun t ml => .ok (.decodedScalar t ml)

/-- The spec §8 scenario: `users(id INT PRIMARY KEY, name TEXT NULL)` and
`orders(id INT PRIMARY KEY, user_id INT REFERENCES users.id)`. -/
def dsMain : DataSource where
  get_table_names := .ok ["users", "orders"]
  get_columns_infos := fun t =>
    if t = "users" then
      .ok [⟨"id", "int4", false, none⟩, ⟨"name", "text", true, none⟩]
    else if t = "orders" then
      .ok [⟨"id", "int4", false, none⟩, ⟨"user_id", "int4", false, none⟩]
    else .error (.capability t)
  get_primary_keys := fun t =>
    if t = "users" then .ok [⟨"id"⟩]
    else if t = "orders" then .ok [⟨"id"⟩]
    else .error (.capability t)
  get_foreign_keys := .ok [⟨"orders", "user_id", "users", "id"⟩]
  decode_to_content := decode0
  set_seed := .ok ()
  get_deterministic_samples := fun _ => .ok []

/-- Two tables `a(x)` and `b(y)`, both single-column primary keys, and a
foreign key `a.x → b.y`: the primary-key column `a.x` is also a
foreign-key source. -/
def dsPkFk : DataSource where
  get_table_names := .ok ["a", "b"]
  get_columns_infos := fun t =>
    if t = "a" then .ok [⟨"x", "int4", false, none⟩]
    else if t = "b" then .ok [⟨"y", "int4", false, none⟩]
    else .error (.capability t)
  get_primary_keys := fun t =>
    if t = "a" then .ok [⟨"x"⟩]
    else if t = "b" then .ok [⟨"y"⟩]
    else .error (.capability t)
  get_foreign_keys := .ok [⟨"a", "x", "b", "y"⟩]
  decode_to_content := decode0
  set_seed := .ok ()
  get_deterministic_samples := fun _ => .ok []

/-- One table `a(x)` with two foreign-key edges sharing the source `a.x`
but pointing at different targets (legal SQL: one column may participate
in two foreign-key constraints). -/
def dsDoubleFk : DataSource where
  get_table_names := .ok ["a"]
  get_columns_infos := fun t =>
    if t = "a" then .ok [⟨"x", "int4", false, none⟩]
    else .error (.capability t)
  get_primary_keys := fun _ => .ok []
  get_foreign_keys := .ok [⟨"a", "x", "b", "y"⟩, ⟨"a", "x", "c", "z"⟩]
  decode_to_content := decode0
  set_seed := .ok ()
  get_deterministic_samples := fun _ => .ok []

/-- One table `a(x)` with a foreign key `a.x → b.y` whose target table `b`
is not among the imported tables. -/
def dsDangling : DataSource where
  get_table_names := .ok ["a"]
  get_columns_infos := fun t =>
    if t = "a" then .ok [⟨"x", "int4", false, none⟩]
    else .error (.capability t)
  get_primary_keys := fun _ => .ok []
  get_foreign_keys := .ok [⟨"a", "x", "b", "y"⟩]
  decode_to_content := decode0
  set_seed := .ok ()
  get_deterministic_samples := fun _ => .ok []

/-- One table `t(a)` whose reported primary key is a column `c` that is
not among the table's columns (an inconsistent catalog). -/
def dsBadPk : DataSource where
  get_table_names := .ok ["t"]
  get_columns_infos := fun tb =>
    if tb = "t" then .ok [⟨"a", "int4", false, none⟩]
    else .error (.capability tb)
  get_primary_keys := fun tb =>
    if tb = "t" then .ok [⟨"c"⟩] else .error (.capability tb)
  get_foreign_keys := .ok []
  decode_to_content := decode0
  set_seed := .ok ()
  get_deterministic_samples := fun _ => .ok []

/-- One table `t(a, b)` with the composite primary key `(a, b)`. -/
def dsCompositePk : DataSource where
  get_table_names := .ok ["t"]
  get_columns_infos := fun tb =>
    if tb = "t" then
      .ok [⟨"a", "int4", false, none⟩, ⟨"b", "int4", false, none⟩]
    else .error (.capability tb)
  get_primary_keys := fun tb =>
    if tb = "t" then .ok [⟨"a"⟩, ⟨"b"⟩] else .error (.capability tb)
  get_foreign_keys := .ok []
  decode_to_content := decode0
  set_seed := .ok ()
  get_deterministic_samples := fun _ => .ok []

/-- A data source whose table listing itself fails. -/
def dsNoTables : DataSource where
  get_table_names := .error (.capability "tables")
  get_columns_infos := fun t => .error (.capability t)
  get_primary_keys := fun t => .error (.capability t)
  get_foreign_keys := .ok []
  decode_to_content := decode0
  set_seed := .ok ()
  get_deterministic_samples := fun _ => .ok []

/-- Modelled from the spec: the values a `U64::Range { low, high, step }`
length node can generate — `low ≤ n < high` in steps of `step` (spec §4.1:
"an Array whose length is fixed to exactly one unit"). -/
def rangeStepContains (low high step n : Nat) : Bool :=
  (low ≤ n) && (n < high) && ((n - low) % step == 0)

/-- The namespace produced from `dsMain` by the collections phase. -/
def mainNs1 : Namespace :=
  [("users", .array (.numberRangeU64 1 2 1) (.object
      [("id", false, .decodedScalar "int4" none),
       ("name", false, .oneOf [.decodedScalar "text" none, .null])])),
   ("orders", .array (.numberRangeU64 1 2 1) (.object
      [("id", false, .decodedScalar "int4" none),
       ("user_id", false, .decodedScalar "int4" none)]))]

/-- `mainNs1` after the primary-key phase. -/
def mainNs2 : Namespace :=
  [("users", .array (.numberRangeU64 1 2 1) (.object
      [("id", false, .numberIdU64),
       ("name", false, .oneOf [.decodedScalar "text" none, .null])])),
   ("orders", .array (.numberRangeU64 1 2 1) (.object
      [("id", false, .numberIdU64),
       ("user_id", false, .decodedScalar "int4" none)]))]

/-- The namespace the whole import produces from `dsMain` (also the
foreign-key phase output, since samples are empty and the merge is
trivial). -/
def mainNs : Namespace :=
  [("users", .array (.numberRangeU64 1 2 1) (.object
      [("id", false, .numberIdU64),
       ("name", false, .oneOf [.decodedScalar "text" none, .null])])),
   ("orders", .array (.numberRangeU64 1 2 1) (.object
      [("id", false, .numberIdU64),
       ("user_id", false, .sameAs ⟨"users", "id"⟩)]))]

/-- The namespace the whole import produces from `dsPkFk`: the foreign-key
phase has overwritten the primary-key identifier at `a.x`. -/
def pkFkNs : Namespace :=
  [("a", .array (.numberRangeU64 1 2 1) (.object
      [("x", false, .sameAs ⟨"b", "y"⟩)])),
   ("b", .array (.numberRangeU64 1 2 1) (.object
      [("y", false, .numberIdU64)]))]

/-- The namespace the whole import produces from `dsDoubleFk`: only the
second edge's target survives at `a.x`. -/
def doubleFkNs : Namespace :=
  [("a", .array (.numberRangeU64 1 2 1) (.object
      [("x", false, .sameAs ⟨"c", "z"⟩)]))]

/-- The namespace the whole import produces from `dsDangling`: the
installed Reference points at `b.y`, which does not resolve. -/
def danglingNs : Namespace :=
  [("a", .array (.numberRangeU64 1 2 1) (.object
      [("x", false, .sameAs ⟨"b", "y"⟩)]))]

/-! ### Navigation lemmas -/

theorem lookupColl_update_self (ns : Namespace) (n : String) (c : Content)
    (h : (lookupColl ns n).isSome) :
    lookupColl (updateColl ns n c) n = some c := by
  induction ns with
  | nil => simp [lookupColl] at h
  | cons e rest ih =>
    obtain ⟨m, c₀⟩ := e
    by_cases hm : m = n
    · simp [lookupColl, updateColl, hm]
    · simp [lookupColl, updateColl, hm] at h ⊢
      exact ih h

theorem lookupColl_update_ne (ns : Namespace) (n : String) (c : Content)
    (m : String) (h : m ≠ n) :
    lookupColl (updateColl ns n c) m = lookupColl ns m := by
  induction ns with
  | nil => simp [updateColl]
  | cons e rest ih =>
    obtain ⟨k, c₀⟩ := e
    by_cases hk : k = n
    · subst hk
      simp [lookupColl, updateColl, Ne.symm h]
    · simp [lookupColl, updateColl, hk]
      split <;> simp_all

theorem lookupField_set_self (fs : List (String × Bool × Content))
    (name : String) (v : Content) (o : Bool) (c : Content)
    (h : lookupField fs name = some (o, c)) :
    lookupField (setFieldContent fs name v) name = some (o, v) := by
  induction fs with
  | nil => simp [lookupField] at h
  | cons e rest ih =>
    obtain ⟨n, o₀, c₀⟩ := e
    by_cases hn : n = name
    · simp [lookupField, setFieldContent, hn] at h ⊢
      exact h.1
    · simp [lookupField, setFieldContent, hn] at h ⊢
      exact ih h

theorem lookupField_set_ne (fs : List (String × Bool × Content))
    (name : String) (v : Content) (m : String) (h : m ≠ name) :
    lookupField (setFieldContent fs name v) m = lookupField fs m := by
  induction fs with
  | nil => simp [setFieldContent]
  | cons e rest ih =>
    obtain ⟨n, o₀, c₀⟩ := e
    by_cases hn : n = name
    · subst hn
      simp [lookupField, setFieldContent, Ne.symm h]
    · simp [lookupField, setFieldContent, hn]
      split <;> simp_all

theorem setSNode_ok_get {ns : Namespace} {f : FieldRef} {v : Content}
    {ns' : Namespace} (h : setSNode ns f v = .ok ns') :
    getSNode ns' f = .ok v := by
  unfold setSNode at h
  split at h
  case h_1 len fields heq =>
    split at h
    case h_1 oc hfield =>
      obtain ⟨o, c⟩ := oc
      cases h
      have h1 : lookupColl (updateColl ns f.collection
            (.array len (.object (setFieldContent fields f.field v))))
            f.collection =
          some (.array len (.object (setFieldContent fields f.field v))) :=
        lookupColl_update_self _ _ _ (by simp [heq])
      have h2 := lookupField_set_self fields f.field v o c hfield
      simp [getSNode, h1, h2]
    case h_2 => exact absurd h (by simp)
  case h_2 => exact absurd h (by simp)

theorem setSNode_frame {ns : Namespace} {f : FieldRef} {v : Content}
    {ns' : Namespace} (h : setSNode ns f v = .ok ns') {g : FieldRef}
    (hg : g ≠ f) : getSNode ns' g = getSNode ns g := by
  unfold setSNode at h
  split at h
  case h_1 len fields heq =>
    split at h
    case h_1 oc hfield =>
      obtain ⟨o, c⟩ := oc
      cases h
      by_cases hcoll : g.collection = f.collection
      · have hfld : g.field ≠ f.field := by
          intro hf
          exact hg (by cases g; cases f; simp_all)
        have h1 : lookupColl (updateColl ns f.collection
              (.array len (.object (setFieldContent fields f.field v))))
              g.collection =
            some (.array len (.object (setFieldContent fields f.field v))) := by
          rw [hcoll]
          exact lookupColl_update_self _ _ _ (by simp [heq])
        have h2 := lookupField_set_ne fields f.field v g.field hfld
        have h3 : lookupColl ns g.collection =
            some (.array len (.object fields)) := by rw [hcoll, heq]
        simp [getSNode, h1, h2, h3]
      · have h1 := lookupColl_update_ne ns f.collection
          (.array len (.object (setFieldContent fields f.field v)))
          g.collection hcoll
        simp [getSNode, h1]
    case h_2 => exact absurd h (by simp)
  case h_2 => exact absurd h (by simp)

theorem setSNode_pres_isOk {ns : Namespace} {f : FieldRef} {v : Content}
    {ns' : Namespace} (h : setSNode ns f v = .ok ns') (g : FieldRef) :
    (getSNode ns' g).isOk = (getSNode ns g).isOk := by
  by_cases hg : g = f
  · subst hg
    rw [setSNode_ok_get h]
    unfold setSNode at h
    split at h
    next len fields heq =>
      split at h
      next oc hfield =>
        obtain ⟨o, c⟩ := oc
        simp [getSNode, heq, hfield, Except.isOk, Except.toBool]
      next => exact absurd h (by simp)
    next => exact absurd h (by simp)
  · rw [setSNode_frame h hg]

theorem fieldRefNew_ok {t c : String} {f : FieldRef}
    (h : fieldRefNew t c = .ok f) : f = ⟨t, c⟩ := by
  unfold fieldRefNew at h
  split at h
  · cases h; rfl
  · cases h

@[simp] theorem exceptBind_ok {α β : Type} (a : α) (f : α → Except Err β) :
    Bind.bind (Except.ok a) f = f a := rfl

@[simp] theorem exceptBind_error {α β : Type} (e : Err)
    (f : α → Except Err β) :
    Bind.bind (Except.error e : Except Err α) f = .error e := rfl

@[simp] theorem exceptError_ne_ok {α : Type} (e : Err) (a : α) :
    (Except.error e = Except.ok a) = False := by
  simp only [eq_iff_iff, iff_false]
  intro h
  cases h

/-! ### Primary-key phase lemmas -/

theorem primaryKeyStep_composite {ns : Namespace} {t : String}
    {ds : DataSource} {pks : List PrimaryKey}
    (hpk : ds.get_primary_keys t = .ok pks) (h2 : 2 ≤ pks.length) :
    primaryKeyStep ns t ds = .error (.unsupportedSchema pks.length t) := by
  unfold primaryKeyStep
  rw [hpk]
  simp only [exceptBind_ok]
  rw [if_pos (by omega)]

theorem primaryKeyStep_nopk {ns : Namespace} {t : String} {ds : DataSource}
    (hpk : ds.get_primary_keys t = .ok []) :
    primaryKeyStep ns t ds = .ok ns := by
  unfold primaryKeyStep
  rw [hpk]
  simp

theorem primaryKeyStep_single {ns : Namespace} {t : String} {ds : DataSource}
    {pk : PrimaryKey} {ns' : Namespace}
    (hpk : ds.get_primary_keys t = .ok [pk])
    (h : primaryKeyStep ns t ds = .ok ns') :
    setSNode ns ⟨t, pk.column_name⟩ .numberIdU64 = .ok ns' := by
  unfold primaryKeyStep at h
  rw [hpk] at h
  simp at h
  cases hf : fieldRefNew t pk.column_name with
  | error e => rw [hf] at h; simp at h
  | ok f =>
    rw [hf] at h
    simp at h
    rw [fieldRefNew_ok hf] at h
    exact h

theorem primaryKeyStep_frame {ns : Namespace} {t : String} {ds : DataSource}
    {ns' : Namespace} (h : primaryKeyStep ns t ds = .ok ns') {g : FieldRef}
    (hg : g.collection ≠ t) : getSNode ns' g = getSNode ns g := by
  unfold primaryKeyStep at h
  cases hpk : ds.get_primary_keys t with
  | error e => rw [hpk] at h; simp at h
  | ok pks =>
    rw [hpk] at h
    simp only [exceptBind_ok] at h
    split at h
    · simp at h
    · split at h
      next pk heq =>
        cases hf : fieldRefNew t pk.column_name with
        | error e => rw [hf] at h; simp at h
        | ok f =>
          rw [hf] at h
          simp only [exceptBind_ok] at h
          have hfe : f = ⟨t, pk.column_name⟩ := fieldRefNew_ok hf
          refine setSNode_frame h ?_
          intro hgf
          apply hg
          rw [hgf, hfe]
      next =>
        cases h
        rfl

theorem primaryKeyStep_pres_isOk {ns : Namespace} {t : String}
    {ds : DataSource} {ns' : Namespace} (h : primaryKeyStep ns t ds = .ok ns')
    (g : FieldRef) : (getSNode ns' g).isOk = (getSNode ns g).isOk := by
  unfold primaryKeyStep at h
  cases hpk : ds.get_primary_keys t with
  | error e => rw [hpk] at h; simp at h
  | ok pks =>
    rw [hpk] at h
    simp only [exceptBind_ok] at h
    split at h
    · simp at h
    · split at h
      next pk heq =>
        cases hf : fieldRefNew t pk.column_name with
        | error e => rw [hf] at h; simp at h
        | ok f =>
          rw [hf] at h
          simp only [exceptBind_ok] at h
          exact setSNode_pres_isOk h g
      next =>
        cases h
        rfl

theorem pk_phase_frame {ns : Namespace} {tables : List String}
    {ds : DataSource} {ns' : Namespace}
    (h : populate_namespace_primary_keys ns tables ds = .ok ns')
    {g : FieldRef} (hg : g.collection ∉ tables) :
    getSNode ns' g = getSNode ns g := by
  induction tables generalizing ns with
  | nil => cases h; rfl
  | cons t rest ih =>
    unfold populate_namespace_primary_keys at h
    cases hs : primaryKeyStep ns t ds with
    | error e => rw [hs] at h; simp at h
    | ok ns₁ =>
      rw [hs] at h
      simp only [exceptBind_ok] at h
      have h1 : g.collection ≠ t := fun hc => hg (hc ▸ List.mem_cons_self t rest)
      have h2 : g.collection ∉ rest := fun hc => hg (List.mem_cons_of_mem t hc)
      rw [ih h h2, primaryKeyStep_frame hs h1]

theorem pk_phase_pres_isOk {ns : Namespace} {tables : List String}
    {ds : DataSource} {ns' : Namespace}
    (h : populate_namespace_primary_keys ns tables ds = .ok ns')
    (g : FieldRef) : (getSNode ns' g).isOk = (getSNode ns g).isOk := by
  induction tables generalizing ns with
  | nil => cases h; rfl
  | cons t rest ih =>
    unfold populate_namespace_primary_keys at h
    cases hs : primaryKeyStep ns t ds with
    | error e => rw [hs] at h; simp at h
    | ok ns₁ =>
      rw [hs] at h
      simp only [exceptBind_ok] at h
      rw [ih h, primaryKeyStep_pres_isOk hs g]

theorem pk_phase_sets {ns : Namespace} {tables : List String}
    {ds : DataSource} {ns' : Namespace} {t : String} {pk : PrimaryKey}
    (h : populate_namespace_primary_keys ns tables ds = .ok ns')
    (hnd : tables.Nodup) (ht : t ∈ tables)
    (hpk : ds.get_primary_keys t = .ok [pk]) :
    getSNode ns' ⟨t, pk.column_name⟩ = .ok .numberIdU64 := by
  induction tables generalizing ns with
  | nil => cases ht
  | cons t₀ rest ih =>
    unfold populate_namespace_primary_keys at h
    cases hs : primaryKeyStep ns t₀ ds with
    | error e => rw [hs] at h; simp at h
    | ok ns₁ =>
      rw [hs] at h
      simp only [exceptBind_ok] at h
      rcases List.mem_cons.mp ht with heq | hmem
      · subst heq
        have hset := primaryKeyStep_single hpk hs
        have hnode := setSNode_ok_get hset
        have hnotin : t ∉ rest := (List.nodup_cons.mp hnd).1
        rw [pk_phase_frame h (by simpa using hnotin)]
        exact hnode
      · exact ih h (List.nodup_cons.mp hnd).2 hmem

theorem pk_phase_composite_fails {ns : Namespace} {tables : List String}
    {ds : DataSource} {t : String} {pks : List PrimaryKey}
    (ht : t ∈ tables) (hpk : ds.get_primary_keys t = .ok pks)
    (h2 : 2 ≤ pks.length) (ns' : Namespace) :
    populate_namespace_primary_keys ns tables ds ≠ .ok ns' := by
  induction tables generalizing ns with
  | nil => cases ht
  | cons t₀ rest ih =>
    intro h
    unfold populate_namespace_primary_keys at h
    cases hs : primaryKeyStep ns t₀ ds with
    | error e => rw [hs] at h; simp at h
    | ok ns₁ =>
      rw [hs] at h
      simp only [exceptBind_ok] at h
      rcases List.mem_cons.mp ht with heq | hmem
      · subst heq
        rw [primaryKeyStep_composite hpk h2] at hs
        cases hs
      · exact ih hmem h

/-! ### Foreign-key phase lemmas -/

theorem linkForeignKeys_frame {ns : Namespace} {fks : List ForeignKey}
    {ns' : Namespace} {t c : String}
    (h : linkForeignKeys ns fks = .ok ns')
    (hl : lastTargetFor fks t c = none) :
    getSNode ns' ⟨t, c⟩ = getSNode ns ⟨t, c⟩ := by
  induction fks generalizing ns with
  | nil => cases h; rfl
  | cons fk rest ih =>
    unfold linkForeignKeys at h
    unfold lastTargetFor at hl
    cases hrest : lastTargetFor rest t c with
    | some r => rw [hrest] at hl; cases hl
    | none =>
      rw [hrest] at hl
      simp only at hl
      have hne : ¬(fk.from_table = t && fk.from_column = c) = true := by
        intro hb
        rw [if_pos hb] at hl
        cases hl
      cases hfrom : fieldRefNew fk.from_table fk.from_column with
      | error e => rw [hfrom] at h; simp at h
      | ok fromF =>
        rw [hfrom] at h
        simp only [exceptBind_ok] at h
        cases hto : fieldRefNew fk.to_table fk.to_column with
        | error e => rw [hto] at h; simp at h
        | ok toF =>
          rw [hto] at h
          simp only [exceptBind_ok] at h
          cases hset : setSNode ns fromF (.sameAs toF) with
          | error e => rw [hset] at h; simp at h
          | ok ns₁ =>
            rw [hset] at h
            simp only [exceptBind_ok] at h
            have hfrom' : fromF = ⟨fk.from_table, fk.from_column⟩ :=
              fieldRefNew_ok hfrom
            have hne' : fromF ≠ ⟨t, c⟩ := by
              rw [hfrom']
              intro heq
              apply hne
              simp at heq
              simp [heq.1, heq.2]
            rw [ih h hrest, setSNode_frame hset (Ne.symm hne')]

theorem linkForeignKeys_sets {ns : Namespace} {fks : List ForeignKey}
    {ns' : Namespace} {t c : String} {r : FieldRef}
    (h : linkForeignKeys ns fks = .ok ns')
    (hl : lastTargetFor fks t c = some r) :
    getSNode ns' ⟨t, c⟩ = .ok (.sameAs r) := by
  induction fks generalizing ns with
  | nil => cases hl
  | cons fk rest ih =>
    unfold linkForeignKeys at h
    unfold lastTargetFor at hl
    cases hfrom : fieldRefNew fk.from_table fk.from_column with
    | error e => rw [hfrom] at h; simp at h
    | ok fromF =>
      rw [hfrom] at h
      simp only [exceptBind_ok] at h
      cases hto : fieldRefNew fk.to_table fk.to_column with
      | error e => rw [hto] at h; simp at h
      | ok toF =>
        rw [hto] at h
        simp only [exceptBind_ok] at h
        cases hset : setSNode ns fromF (.sameAs toF) with
        | error e => rw [hset] at h; simp at h
        | ok ns₁ =>
          rw [hset] at h
          simp only [exceptBind_ok] at h
          cases hrest : lastTargetFor rest t c with
          | some r' =>
            rw [hrest] at hl
            simp only [Option.some.injEq] at hl
            subst hl
            exact ih h hrest
          | none =>
            rw [hrest] at hl
            simp only at hl
            split at hl
            next hb =>
              simp only [Option.some.injEq] at hl
              simp only [Bool.and_eq_true, decide_eq_true_eq] at hb
              have hfrom' : fromF = ⟨t, c⟩ := by
                rw [fieldRefNew_ok hfrom, hb.1, hb.2]
              have hto' : toF = ⟨fk.to_table, fk.to_column⟩ :=
                fieldRefNew_ok hto
              rw [linkForeignKeys_frame h hrest, ← hfrom',
                setSNode_ok_get hset, hto', hl]
            next => cases hl

theorem linkForeignKeys_pres_isOk {ns : Namespace} {fks : List ForeignKey}
    {ns' : Namespace} (h : linkForeignKeys ns fks = .ok ns') (g : FieldRef) :
    (getSNode ns' g).isOk = (getSNode ns g).isOk := by
  induction fks generalizing ns with
  | nil => cases h; rfl
  | cons fk rest ih =>
    unfold linkForeignKeys at h
    cases hfrom : fieldRefNew fk.from_table fk.from_column with
    | error e => rw [hfrom] at h; simp at h
    | ok fromF =>
      rw [hfrom] at h
      simp only [exceptBind_ok] at h
      cases hto : fieldRefNew fk.to_table fk.to_column with
      | error e => rw [hto] at h; simp at h
      | ok toF =>
        rw [hto] at h
        simp only [exceptBind_ok] at h
        cases hset : setSNode ns fromF (.sameAs toF) with
        | error e => rw [hset] at h; simp at h
        | ok ns₁ =>
          rw [hset] at h
          simp only [exceptBind_ok] at h
          rw [ih h, setSNode_pres_isOk hset g]

/-! ### Collections phase lemmas -/

theorem lookupColl_append_right (ns tail : Namespace) (t : String)
    (h : lookupColl ns t = none) :
    lookupColl (ns ++ tail) t = lookupColl tail t := by
  induction ns with
  | nil => rfl
  | cons e rest ih =>
    obtain ⟨n, c⟩ := e
    by_cases hn : n = t
    · simp [lookupColl, hn] at h
    · simp only [List.cons_append, lookupColl, hn, if_false]
      exact ih (by simpa [lookupColl, hn] using h)

theorem lookupColl_append_left (ns tail : Namespace) (t : String)
    (h : (lookupColl ns t).isSome) :
    lookupColl (ns ++ tail) t = lookupColl ns t := by
  induction ns with
  | nil => simp [lookupColl] at h
  | cons e rest ih =>
    obtain ⟨n, c⟩ := e
    by_cases hn : n = t
    · simp [lookupColl, hn]
    · simp only [List.cons_append, lookupColl, hn, if_false]
      exact ih (by simpa [lookupColl, hn] using h)

theorem putCollection_ok {ns : Namespace} {name : String} {c : Content}
    {ns' : Namespace} (h : putCollection ns name c = .ok ns') :
    lookupColl ns name = none ∧ ns' = ns ++ [(name, c)] := by
  unfold putCollection at h
  split at h
  · cases h
  next hnone =>
    cases h
    exact ⟨Option.not_isSome_iff_eq_none.mp hnone, rfl⟩

theorem coll_phase_extends {ns : Namespace} {tables : List String}
    {ds : DataSource} {ns' : Namespace}
    (h : populate_namespace_collections ns tables ds = .ok ns') :
    ∃ tail, ns' = ns ++ tail := by
  induction tables generalizing ns with
  | nil => cases h; exact ⟨[], by simp⟩
  | cons t rest ih =>
    unfold populate_namespace_collections at h
    cases hc : ds.get_columns_infos t with
    | error e => rw [hc] at h; simp at h
    | ok cols =>
      rw [hc] at h
      simp only [exceptBind_ok] at h
      cases hn : nameFromStr t with
      | error e => rw [hn] at h; simp at h
      | ok name =>
        rw [hn] at h
        simp only [exceptBind_ok] at h
        cases hcol : collectionTryFrom ds cols with
        | error e => rw [hcol] at h; simp at h
        | ok coll =>
          rw [hcol] at h
          simp only [exceptBind_ok] at h
          cases hput : putCollection ns name coll with
          | error e => rw [hput] at h; simp at h
          | ok ns₀ =>
            rw [hput] at h
            simp only [exceptBind_ok] at h
            obtain ⟨_, hns₀⟩ := putCollection_ok hput
            obtain ⟨tail, htail⟩ := ih h
            exact ⟨[(name, coll)] ++ tail, by rw [htail, hns₀, List.append_assoc]⟩

theorem nameFromStr_ok {s name : String} (h : nameFromStr s = .ok name) :
    name = s := by
  unfold nameFromStr at h
  split at h
  · cases h; rfl
  · cases h

theorem coll_phase_keys {ns : Namespace} {tables : List String}
    {ds : DataSource} {ns' : Namespace}
    (h : populate_namespace_collections ns tables ds = .ok ns') :
    ns'.map Prod.fst = ns.map Prod.fst ++ tables := by
  induction tables generalizing ns with
  | nil => cases h; simp
  | cons t rest ih =>
    unfold populate_namespace_collections at h
    cases hc : ds.get_columns_infos t with
    | error e => rw [hc] at h; simp at h
    | ok cols =>
      rw [hc] at h
      simp only [exceptBind_ok] at h
      cases hn : nameFromStr t with
      | error e => rw [hn] at h; simp at h
      | ok name =>
        rw [hn] at h
        simp only [exceptBind_ok] at h
        cases hcol : collectionTryFrom ds cols with
        | error e => rw [hcol] at h; simp at h
        | ok coll =>
          rw [hcol] at h
          simp only [exceptBind_ok] at h
          cases hput : putCollection ns name coll with
          | error e => rw [hput] at h; simp at h
          | ok ns₀ =>
            rw [hput] at h
            simp only [exceptBind_ok] at h
            obtain ⟨_, hns₀⟩ := putCollection_ok hput
            rw [ih h, hns₀, nameFromStr_ok hn]
            simp

theorem lookupColl_eq_none_of_not_mem {ns : Namespace} {t : String}
    (h : t ∉ ns.map Prod.fst) : lookupColl ns t = none := by
  induction ns with
  | nil => rfl
  | cons e rest ih =>
    obtain ⟨n, c⟩ := e
    simp only [List.map_cons, List.mem_cons] at h
    push_neg at h
    simp [lookupColl, Ne.symm h.1]
    exact ih h.2

theorem lookupColl_isSome_of_mem {ns : Namespace} {t : String}
    (h : t ∈ ns.map Prod.fst) : (lookupColl ns t).isSome := by
  induction ns with
  | nil => simp at h
  | cons e rest ih =>
    obtain ⟨n, c⟩ := e
    by_cases hn : n = t
    · simp [lookupColl, hn]
    · simp only [List.map_cons, List.mem_cons] at h
      rcases h with h | h
      · exact absurd h.symm hn
      · simpa [lookupColl, hn] using ih h

theorem coll_phase_nodup {ns : Namespace} {tables : List String}
    {ds : DataSource} {ns' : Namespace}
    (h : populate_namespace_collections ns tables ds = .ok ns')
    (hnd : (ns.map Prod.fst).Nodup) : (ns'.map Prod.fst).Nodup := by
  induction tables generalizing ns with
  | nil => cases h; exact hnd
  | cons t rest ih =>
    unfold populate_namespace_collections at h
    cases hc : ds.get_columns_infos t with
    | error e => rw [hc] at h; simp at h
    | ok cols =>
      rw [hc] at h
      simp only [exceptBind_ok] at h
      cases hn : nameFromStr t with
      | error e => rw [hn] at h; simp at h
      | ok name =>
        rw [hn] at h
        simp only [exceptBind_ok] at h
        cases hcol : collectionTryFrom ds cols with
        | error e => rw [hcol] at h; simp at h
        | ok coll =>
          rw [hcol] at h
          simp only [exceptBind_ok] at h
          cases hput : putCollection ns name coll with
          | error e => rw [hput] at h; simp at h
          | ok ns₀ =>
            rw [hput] at h
            simp only [exceptBind_ok] at h
            obtain ⟨hnone, hns₀⟩ := putCollection_ok hput
            refine ih h ?_
            rw [hns₀]
            simp only [List.map_append, List.map_cons, List.map_nil]
            rw [List.nodup_append]
            refine ⟨hnd, List.nodup_singleton name, ?_⟩
            intro x hx hy
            simp at hy
            subst hy
            have := lookupColl_isSome_of_mem hx
            rw [hnone] at this
            cases this

theorem lookupField_insert_self (fs : List (String × Bool × Content))
    (k : String) (v : Bool × Content) :
    lookupField (insertField fs k v) k = some v := by
  induction fs with
  | nil => simp [insertField, lookupField]
  | cons e rest ih =>
    obtain ⟨n, o, c⟩ := e
    by_cases hn : n = k
    · simp [insertField, lookupField, hn]
    · simpa [insertField, lookupField, hn] using ih

theorem lookupField_insert_ne (fs : List (String × Bool × Content))
    (k : String) (v : Bool × Content) (m : String) (h : m ≠ k) :
    lookupField (insertField fs k v) m = lookupField fs m := by
  induction fs with
  | nil => simp [insertField, lookupField, Ne.symm h]
  | cons e rest ih =>
    obtain ⟨n, o, c⟩ := e
    by_cases hn : n = k
    · subst hn
      simp [insertField, lookupField, Ne.symm h]
    · simp only [insertField, hn, if_false]
      by_cases hm : n = m
      · simp [lookupField, hm]
      · simpa [lookupField, hm] using ih

theorem buildFieldsAux_key {ds : DataSource}
    {acc : List (String × Bool × Content)} {cols : List ColumnInfo}
    {fields : List (String × Bool × Content)}
    (h : buildFieldsAux ds acc cols = .ok fields) {k : String}
    (hk : (lookupField acc k).isSome ∨ ∃ ci ∈ cols, ci.column_name = k) :
    (lookupField fields k).isSome := by
  induction cols generalizing acc with
  | nil =>
    cases h
    rcases hk with hk | ⟨ci, hci, _⟩
    · exact hk
    · cases hci
  | cons ci rest ih =>
    unfold buildFieldsAux at h
    cases hfc : fieldContentTryFrom ds ci with
    | error e => rw [hfc] at h; simp at h
    | ok fc =>
      rw [hfc] at h
      simp only [exceptBind_ok] at h
      refine ih h ?_
      by_cases hck : ci.column_name = k
      · left
        rw [← hck, lookupField_insert_self]
        rfl
      · rcases hk with hk | ⟨ci', hci', hk'⟩
        · left
          rw [lookupField_insert_ne _ _ _ _ (fun hm => hck hm.symm)]
          exact hk
        · rcases List.mem_cons.mp hci' with heq | hmem
          · subst heq; exact absurd hk' hck
          · exact Or.inr ⟨ci', hmem, hk'⟩

theorem collectionTryFrom_ok {ds : DataSource} {cols : List ColumnInfo}
    {coll : Content} (h : collectionTryFrom ds cols = .ok coll) :
    ∃ fields, buildFields ds cols = .ok fields ∧
      coll = .array (.numberRangeU64 1 2 1) (.object fields) := by
  unfold collectionTryFrom at h
  cases hb : buildFields ds cols with
  | error e => rw [hb] at h; simp at h
  | ok fields =>
    rw [hb] at h
    simp only [exceptBind_ok] at h
    cases h
    exact ⟨fields, rfl, rfl⟩

theorem coll_phase_field_exists {ns : Namespace} {tables : List String}
    {ds : DataSource} {ns' : Namespace} {t : String} {cols : List ColumnInfo}
    {ci : ColumnInfo}
    (h : populate_namespace_collections ns tables ds = .ok ns')
    (ht : t ∈ tables) (hc : ds.get_columns_infos t = .ok cols)
    (hci : ci ∈ cols) :
    (getSNode ns' ⟨t, ci.column_name⟩).isOk = true := by
  induction tables generalizing ns with
  | nil => cases ht
  | cons t₀ rest ih =>
    unfold populate_namespace_collections at h
    cases hcol₀ : ds.get_columns_infos t₀ with
    | error e => rw [hcol₀] at h; simp at h
    | ok cols₀ =>
      rw [hcol₀] at h
      simp only [exceptBind_ok] at h
      cases hn : nameFromStr t₀ with
      | error e => rw [hn] at h; simp at h
      | ok name =>
        rw [hn] at h
        simp only [exceptBind_ok] at h
        cases hcoll : collectionTryFrom ds cols₀ with
        | error e => rw [hcoll] at h; simp at h
        | ok coll =>
          rw [hcoll] at h
          simp only [exceptBind_ok] at h
          cases hput : putCollection ns name coll with
          | error e => rw [hput] at h; simp at h
          | ok ns₀ =>
            rw [hput] at h
            simp only [exceptBind_ok] at h
            rcases List.mem_cons.mp ht with heq | hmem
            · subst heq
              rw [hcol₀] at hc
              cases hc
              obtain ⟨hnone, hns₀⟩ := putCollection_ok hput
              obtain ⟨fields, hbf, hcolleq⟩ := collectionTryFrom_ok hcoll
              have hkey : (lookupField fields ci.column_name).isSome :=
                buildFieldsAux_key hbf (Or.inr ⟨ci, hci, rfl⟩)
              obtain ⟨tail, htail⟩ := coll_phase_extends h
              have hname : name = t := nameFromStr_ok hn
              subst hname
              have hlook : lookupColl ns' name =
                  some (.array (.numberRangeU64 1 2 1) (.object fields)) := by
                rw [htail, hns₀, List.append_assoc,
                  lookupColl_append_right ns _ _ hnone]
                simp [lookupColl, hcolleq]
              obtain ⟨⟨o, c⟩, hfield⟩ := Option.isSome_iff_exists.mp hkey
              simp [getSNode, hlook, hfield, Except.isOk, Except.toBool]
            · exact ih h hmem

theorem buildFieldsAux_key_conv {ds : DataSource}
    {acc : List (String × Bool × Content)} {cols : List ColumnInfo}
    {fields : List (String × Bool × Content)}
    (h : buildFieldsAux ds acc cols = .ok fields) {k : String}
    (hk : (lookupField fields k).isSome) :
    (lookupField acc k).isSome ∨ k ∈ cols.map ColumnInfo.column_name := by
  induction cols generalizing acc with
  | nil =>
    cases h
    exact Or.inl hk
  | cons ci rest ih =>
    unfold buildFieldsAux at h
    cases hfc : fieldContentTryFrom ds ci with
    | error e => rw [hfc] at h; simp at h
    | ok fc =>
      rw [hfc] at h
      simp only [exceptBind_ok] at h
      rcases ih h with hacc | hmem
      · by_cases hck : k = ci.column_name
        · exact Or.inr (by simp [hck])
        · left
          rw [lookupField_insert_ne _ _ _ _ hck] at hacc
          exact hacc
      · exact Or.inr (by simp [hmem])

theorem getSNode_append_coll_ne {ns : Namespace} {t₀ : String}
    {coll : Content} {f : FieldRef} (h : f.collection ≠ t₀) :
    getSNode (ns ++ [(t₀, coll)]) f = getSNode ns f := by
  unfold getSNode
  have hlc : lookupColl (ns ++ [(t₀, coll)]) f.collection =
      lookupColl ns f.collection := by
    cases hl : lookupColl ns f.collection with
    | some c => rw [lookupColl_append_left _ _ _ (by simp [hl]), hl]
    | none =>
      rw [lookupColl_append_right _ _ _ hl]
      simp [lookupColl, Ne.symm h]
  rw [hlc]

theorem coll_phase_field_conv {ns : Namespace} {tables : List String}
    {ds : DataSource} {ns' : Namespace} {t c : String}
    (h : populate_namespace_collections ns tables ds = .ok ns')
    (hok : (getSNode ns' ⟨t, c⟩).isOk = true)
    (hns : (getSNode ns ⟨t, c⟩).isOk = false) :
    t ∈ tables ∧ ∃ cols, ds.get_columns_infos t = .ok cols ∧
      c ∈ cols.map ColumnInfo.column_name := by
  induction tables generalizing ns with
  | nil =>
    cases h
    rw [hok] at hns
    cases hns
  | cons t₀ rest ih =>
    unfold populate_namespace_collections at h
    cases hcol₀ : ds.get_columns_infos t₀ with
    | error e => rw [hcol₀] at h; simp at h
    | ok cols₀ =>
      rw [hcol₀] at h
      simp only [exceptBind_ok] at h
      cases hn : nameFromStr t₀ with
      | error e => rw [hn] at h; simp at h
      | ok name =>
        rw [hn] at h
        simp only [exceptBind_ok] at h
        cases hcoll : collectionTryFrom ds cols₀ with
        | error e => rw [hcoll] at h; simp at h
        | ok coll =>
          rw [hcoll] at h
          simp only [exceptBind_ok] at h
          cases hput : putCollection ns name coll with
          | error e => rw [hput] at h; simp at h
          | ok ns₀ =>
            rw [hput] at h
            simp only [exceptBind_ok] at h
            have hname : name = t₀ := nameFromStr_ok hn
            subst hname
            obtain ⟨hnone, hns₀⟩ := putCollection_ok hput
            by_cases h₀ : (getSNode ns₀ ⟨t, c⟩).isOk = true
            · by_cases hct : t = name
              · subst hct
                refine ⟨List.mem_cons_self _ _, cols₀, hcol₀, ?_⟩
                obtain ⟨fields, hbf, hcolleq⟩ := collectionTryFrom_ok hcoll
                have hbf' : buildFieldsAux ds [] cols₀ = .ok fields := hbf
                have hlook : lookupColl ns₀ t =
                    some (.array (.numberRangeU64 1 2 1) (.object fields)) := by
                  rw [hns₀, lookupColl_append_right ns _ _ hnone]
                  simp [lookupColl, hcolleq]
                have hfind : (lookupField fields c).isSome := by
                  by_contra hnone'
                  rw [Option.not_isSome_iff_eq_none] at hnone'
                  simp [getSNode, hlook, hnone', Except.isOk,
                    Except.toBool] at h₀
                rcases buildFieldsAux_key_conv hbf' hfind with hacc | hmem
                · simp [lookupField] at hacc
                · exact hmem
              · have : getSNode ns₀ ⟨t, c⟩ = getSNode ns ⟨t, c⟩ := by
                  rw [hns₀]
                  exact getSNode_append_coll_ne hct
                rw [this] at h₀
                rw [h₀] at hns
                cases hns
            · obtain ⟨hmem, hcols⟩ :=
                ih h (by simpa using h₀)
              exact ⟨List.mem_cons_of_mem _ hmem, hcols⟩

/-! ### Values phase lemmas -/

theorem mergeLoop_preserves {merge : MergeFn} {ns : Namespace}
    {tables : List String} {ds : DataSource} {ns' : Namespace}
    (hm : MergePreservesAnnotations merge)
    (h : (mergeLoop merge ns tables ds).1 = .ok ns') {f : FieldRef}
    (ha : (∃ r, getSNode ns f = .ok (.sameAs r)) ∨
      getSNode ns f = .ok .numberIdU64) :
    getSNode ns' f = getSNode ns f := by
  induction tables generalizing ns with
  | nil =>
    unfold mergeLoop at h
    simp at h
    rw [h]
  | cons t rest ih =>
    unfold mergeLoop at h
    cases hs : ds.get_deterministic_samples t with
    | error e => rw [hs] at h; simp at h
    | ok vs =>
      rw [hs] at h
      simp only at h
      cases hmerge : merge ns t vs with
      | error e => rw [hmerge] at h; simp at h
      | ok ns₁ =>
        rw [hmerge] at h
        simp only at h
        have hpres := hm ns t vs ns₁ hmerge f ha
        have ha₁ : (∃ r, getSNode ns₁ f = .ok (.sameAs r)) ∨
            getSNode ns₁ f = .ok .numberIdU64 := by
          rw [hpres]; exact ha
        rw [← hpres]
        exact ih h ha₁

theorem populate_values_preserves {merge : MergeFn} {ns : Namespace}
    {tables : List String} {ds : DataSource} {ns' : Namespace}
    (hm : MergePreservesAnnotations merge)
    (h : (populate_namespace_values merge ns tables ds).1 = .ok ns')
    {f : FieldRef}
    (ha : (∃ r, getSNode ns f = .ok (.sameAs r)) ∨
      getSNode ns f = .ok .numberIdU64) :
    getSNode ns' f = getSNode ns f := by
  unfold populate_namespace_values at h
  cases hseed : ds.set_seed with
  | error e => rw [hseed] at h; simp at h
  | ok u =>
    rw [hseed] at h
    simp only at h
    exact mergeLoop_preserves hm h ha

theorem mergeLoop_trace (merge : MergeFn) (ns : Namespace)
    (tables : List String) (ds : DataSource) :
    ∃ n, (mergeLoop merge ns tables ds).2 =
      (tables.take n).map Event.getSamples := by
  induction tables generalizing ns with
  | nil => exact ⟨0, rfl⟩
  | cons t rest ih =>
    cases hs : ds.get_deterministic_samples t with
    | error e =>
      refine ⟨1, ?_⟩
      unfold mergeLoop
      simp [hs]
    | ok vs =>
      cases hmerge : merge ns t vs with
      | error e =>
        refine ⟨1, ?_⟩
        unfold mergeLoop
        simp [hs, hmerge]
      | ok ns₁ =>
        obtain ⟨n, hn⟩ := ih ns₁
        refine ⟨n + 1, ?_⟩
        unfold mergeLoop
        simp only [hs, hmerge]
        simp [hn]

theorem mergeLoop_congr (merge : MergeFn) (ns : Namespace)
    (tables : List String) (ds₁ ds₂ : DataSource)
    (h : ds₁.get_deterministic_samples = ds₂.get_deterministic_samples) :
    mergeLoop merge ns tables ds₁ = mergeLoop merge ns tables ds₂ := by
  induction tables generalizing ns with
  | nil => rfl
  | cons t rest ih =>
    unfold mergeLoop
    rw [h]
    cases ds₂.get_deterministic_samples t with
    | error e => rfl
    | ok vs =>
      simp only
      cases merge ns t vs with
      | error e => rfl
      | ok ns₁ => simp only [ih]

/-! ### Pipeline decomposition -/

theorem build_ok_iff {merge : MergeFn} {ds : DataSource} {ns : Namespace} :
    build_namespace_import merge ds = .ok ns ↔
      ∃ tables ns₁ ns₂ ns₃,
        ds.get_table_names = .ok tables ∧
        populate_namespace_collections [] tables ds = .ok ns₁ ∧
        populate_namespace_primary_keys ns₁ tables ds = .ok ns₂ ∧
        populate_namespace_foreign_keys ns₂ ds = .ok ns₃ ∧
        (populate_namespace_values merge ns₃ tables ds).1 = .ok ns := by
  constructor
  · intro h
    unfold build_namespace_import at h
    cases ht : ds.get_table_names with
    | error e => rw [ht] at h; simp at h
    | ok tables =>
      rw [ht] at h
      simp only [exceptBind_ok] at h
      cases h1 : populate_namespace_collections [] tables ds with
      | error e => rw [h1] at h; simp at h
      | ok ns₁ =>
        rw [h1] at h
        simp only [exceptBind_ok] at h
        cases h2 : populate_namespace_primary_keys ns₁ tables ds with
        | error e => rw [h2] at h; simp at h
        | ok ns₂ =>
          rw [h2] at h
          simp only [exceptBind_ok] at h
          cases h3 : populate_namespace_foreign_keys ns₂ ds with
          | error e => rw [h3] at h; simp at h
          | ok ns₃ =>
            rw [h3] at h
            simp only [exceptBind_ok] at h
            exact ⟨tables, ns₁, ns₂, ns₃, rfl, h1, h2, h3, h⟩
  · rintro ⟨tables, ns₁, ns₂, ns₃, ht, h1, h2, h3, h4⟩
    unfold build_namespace_import
    rw [ht]
    simp only [exceptBind_ok]
    rw [h1]
    simp only [exceptBind_ok]
    rw [h2]
    simp only [exceptBind_ok]
    rw [h3]
    simp only [exceptBind_ok]
    exact h4

theorem fk_phase_link {ns : Namespace} {ds : DataSource} {ns' : Namespace}
    {fks : List ForeignKey}
    (h : populate_namespace_foreign_keys ns ds = .ok ns')
    (hfk : ds.get_foreign_keys = .ok fks) :
    linkForeignKeys ns fks = .ok ns' := by
  unfold populate_namespace_foreign_keys at h
  rw [hfk] at h
  simpa using h

/-- For a successful import, the node a foreign-key source field ends at:
the Reference to the last same-source edge's target. Shared backbone of
the foreign-key claims. -/
theorem build_ok_fk_node {merge : MergeFn} {ds : DataSource} {ns : Namespace}
    {fks : List ForeignKey} {t c : String} {r : FieldRef}
    (hm : MergePreservesAnnotations merge)
    (h : build_namespace_import merge ds = .ok ns)
    (hfk : ds.get_foreign_keys = .ok fks)
    (hl : lastTargetFor fks t c = some r) :
    getSNode ns ⟨t, c⟩ = .ok (.sameAs r) := by
  obtain ⟨tables, ns₁, ns₂, ns₃, ht, h1, h2, h3, h4⟩ := build_ok_iff.mp h
  have hlink := fk_phase_link h3 hfk
  have hnode := linkForeignKeys_sets hlink hl
  rw [populate_values_preserves hm h4 (Or.inl ⟨r, hnode⟩), hnode]

/-- For a successful import, a single-primary-key column that is not the
source of any foreign-key edge ends at the identifier generator. Shared
backbone of the primary-key claims. -/
theorem build_ok_pk_node {merge : MergeFn} {ds : DataSource} {ns : Namespace}
    {tables : List String} {fks : List ForeignKey} {t : String}
    {pk : PrimaryKey}
    (hm : MergePreservesAnnotations merge)
    (h : build_namespace_import merge ds = .ok ns)
    (ht : ds.get_table_names = .ok tables)
    (htm : t ∈ tables)
    (hpk : ds.get_primary_keys t = .ok [pk])
    (hfk : ds.get_foreign_keys = .ok fks)
    (hl : lastTargetFor fks t pk.column_name = none) :
    getSNode ns ⟨t, pk.column_name⟩ = .ok .numberIdU64 := by
  obtain ⟨tables', ns₁, ns₂, ns₃, ht', h1, h2, h3, h4⟩ := build_ok_iff.mp h
  rw [ht] at ht'
  cases ht'
  have hnd : tables.Nodup := by
    have hkeys := coll_phase_keys h1
    have hnodup := coll_phase_nodup h1 (by simp)
    rw [hkeys] at hnodup
    simpa using hnodup
  have hid := pk_phase_sets h2 hnd htm hpk
  have hlink := fk_phase_link h3 hfk
  have hfkframe := linkForeignKeys_frame hlink hl
  have hnode : getSNode ns₃ ⟨t, pk.column_name⟩ = .ok .numberIdU64 := by
    rw [hfkframe, hid]
  rw [populate_values_preserves hm h4 (Or.inr hnode), hnode]

/-! ### Further helper lemmas -/

theorem idMerge_preserves : MergePreservesAnnotations idMerge := by
  intro ns t vs ns' h f _
  cases h
  rfl

theorem setSNode_exists_iff {ns : Namespace} {f : FieldRef} {v : Content} :
    (∃ ns', setSNode ns f v = .ok ns') ↔ (getSNode ns f).isOk = true := by
  cases heq : lookupColl ns f.collection with
  | none => simp [setSNode, getSNode, heq, Except.isOk, Except.toBool]
  | some c0 =>
    rcases c0 with fs | ⟨len, el⟩ | ⟨lo, hi, st⟩ | _ | vs | r | _ | ⟨dt, ml⟩
    case array =>
      rcases el with fields | ⟨len2, el2⟩ | ⟨lo, hi, st⟩ | _ | vs | r | _ | ⟨dt, ml⟩
      case object =>
        cases hf : lookupField fields f.field with
        | none =>
          simp [setSNode, getSNode, heq, hf, Except.isOk, Except.toBool]
        | some oc =>
          obtain ⟨o, c⟩ := oc
          simp [setSNode, getSNode, heq, hf, Except.isOk, Except.toBool]
      all_goals simp [setSNode, getSNode, heq, Except.isOk, Except.toBool]
    all_goals simp [setSNode, getSNode, heq, Except.isOk, Except.toBool]

theorem fieldRefNew_valid {t c : String}
    (h : (isValidIdent t && isValidIdent c) = true) :
    fieldRefNew t c = .ok ⟨t, c⟩ := by
  unfold fieldRefNew
  rw [if_pos h]

theorem fieldRefNew_valid_of_ok {t c : String} {f : FieldRef}
    (h : fieldRefNew t c = .ok f) :
    (isValidIdent t && isValidIdent c) = true := by
  unfold fieldRefNew at h
  split at h
  next hb => exact hb
  next => cases h

theorem fieldContentTryFrom_optional {ds : DataSource} {ci : ColumnInfo}
    {fc : Bool × Content} (h : fieldContentTryFrom ds ci = .ok fc) :
    fc.1 = false := by
  unfold fieldContentTryFrom at h
  cases hd : ds.decode_to_content ci.data_type ci.character_maximum_length with
  | error e => rw [hd] at h; simp at h
  | ok d =>
    rw [hd] at h
    simp only [exceptBind_ok] at h
    cases h
    rfl

theorem insertField_mem {fs : List (String × Bool × Content)} {k : String}
    {v : Bool × Content} {e : String × Bool × Content}
    (h : e ∈ insertField fs k v) : e = (k, v.1, v.2) ∨ e ∈ fs := by
  induction fs with
  | nil =>
    simp [insertField] at h
    exact Or.inl h
  | cons f rest ih =>
    obtain ⟨n, o, c⟩ := f
    by_cases hn : n = k
    · subst hn
      simp only [insertField, if_pos rfl] at h
      rcases List.mem_cons.mp h with heq | hmem
      · exact Or.inl (by rw [heq])
      · exact Or.inr (List.mem_cons_of_mem _ hmem)
    · simp only [insertField, hn, if_false] at h
      rcases List.mem_cons.mp h with heq | hmem
      · exact Or.inr (heq ▸ List.mem_cons_self _ _)
      · rcases ih hmem with h' | h'
        · exact Or.inl h'
        · exact Or.inr (List.mem_cons_of_mem _ h')

theorem buildFieldsAux_optional {ds : DataSource}
    {acc : List (String × Bool × Content)} {cols : List ColumnInfo}
    {fields : List (String × Bool × Content)}
    (h : buildFieldsAux ds acc cols = .ok fields)
    (hacc : ∀ e ∈ acc, e.2.1 = false) :
    ∀ e ∈ fields, e.2.1 = false := by
  induction cols generalizing acc with
  | nil => cases h; exact hacc
  | cons ci rest ih =>
    unfold buildFieldsAux at h
    cases hfc : fieldContentTryFrom ds ci with
    | error e => rw [hfc] at h; simp at h
    | ok fc =>
      rw [hfc] at h
      simp only [exceptBind_ok] at h
      refine ih h ?_
      intro e he
      rcases insertField_mem he with heq | hmem
      · rw [heq]
        exact fieldContentTryFrom_optional hfc
      · exact hacc e hmem

theorem insertField_append {fs : List (String × Bool × Content)} {k : String}
    (v : Bool × Content) (h : lookupField fs k = none) :
    insertField fs k v = fs ++ [(k, v.1, v.2)] := by
  induction fs with
  | nil => rfl
  | cons f rest ih =>
    obtain ⟨n, o, c⟩ := f
    by_cases hn : n = k
    · simp [lookupField, hn] at h
    · simp only [lookupField, hn, if_false] at h
      simp [insertField, hn, ih h]

theorem lookupField_append_of_none {fs gs : List (String × Bool × Content)}
    {k : String} (h : lookupField fs k = none) :
    lookupField (fs ++ gs) k = lookupField gs k := by
  induction fs with
  | nil => rfl
  | cons f rest ih =>
    obtain ⟨n, o, c⟩ := f
    by_cases hn : n = k
    · simp [lookupField, hn] at h
    · simp only [lookupField, hn, if_false] at h
      simpa [lookupField, hn] using ih h

theorem buildFieldsAux_order {ds : DataSource}
    {acc : List (String × Bool × Content)} {cols : List ColumnInfo}
    {fields : List (String × Bool × Content)}
    (h : buildFieldsAux ds acc cols = .ok fields)
    (hdisj : ∀ ci ∈ cols, lookupField acc ci.column_name = none)
    (hnd : (cols.map ColumnInfo.column_name).Nodup) :
    fields.map Prod.fst = acc.map Prod.fst ++ cols.map ColumnInfo.column_name := by
  induction cols generalizing acc with
  | nil => cases h; simp
  | cons ci rest ih =>
    unfold buildFieldsAux at h
    cases hfc : fieldContentTryFrom ds ci with
    | error e => rw [hfc] at h; simp at h
    | ok fc =>
      rw [hfc] at h
      simp only [exceptBind_ok] at h
      have hnone : lookupField acc ci.column_name = none :=
        hdisj ci (List.mem_cons_self _ _)
      rw [insertField_append fc hnone] at h
      have hdisj' : ∀ ci' ∈ rest,
          lookupField (acc ++ [(ci.column_name, fc.1, fc.2)])
            ci'.column_name = none := by
        intro ci' hci'
        have hn : ci'.column_name ≠ ci.column_name := by
          intro heq
          have := (List.nodup_cons.mp hnd).1
          exact this (heq ▸ List.mem_map_of_mem ColumnInfo.column_name hci')
        rw [lookupField_append_of_none (hdisj ci' (List.mem_cons_of_mem _ hci'))]
        simp [lookupField, Ne.symm hn]
      rw [ih h hdisj' (List.nodup_cons.mp hnd).2]
      simp

theorem primaryKeyStep_single_valid {ns : Namespace} {t : String}
    {ds : DataSource} {pk : PrimaryKey} {ns' : Namespace}
    (hpk : ds.get_primary_keys t = .ok [pk])
    (h : primaryKeyStep ns t ds = .ok ns') :
    (isValidIdent t && isValidIdent pk.column_name) = true := by
  unfold primaryKeyStep at h
  rw [hpk] at h
  simp at h
  cases hf : fieldRefNew t pk.column_name with
  | error e => rw [hf] at h; simp at h
  | ok f => exact fieldRefNew_valid_of_ok hf

/-! ## Claim theorems -/

/-- Claim C4: for every column marked nullable, the field built for it is
an Alternation with exactly two variants — the decoded content node and
the Null node, in that order — regardless of the decoded type; a
non-nullable column's field is the decoded node unwrapped. -/
theorem c4_nullable_alternation (ds : DataSource) (ci : ColumnInfo)
    (o : Bool) (c : Content)
    (h : fieldContentTryFrom ds ci = .ok (o, c)) :
    ∃ d, ds.decode_to_content ci.data_type ci.character_maximum_length =
        .ok d ∧
      c = if ci.is_nullable then .oneOf [d, .null] else d := by
  unfold fieldContentTryFrom at h
  cases hd : ds.decode_to_content ci.data_type ci.character_maximum_length with
  | error e => rw [hd] at h; simp at h
  | ok d =>
    rw [hd] at h
    simp only [exceptBind_ok] at h
    refine ⟨d, rfl, ?_⟩
    have : (Except.ok
        (false, if ci.is_nullable then
          Content.oneOf [d, Content.null] else d) : Except Err (Bool × Content)) = .ok (o, c) := h
    simp only [Except.ok.injEq, Prod.mk.injEq] at this
    exact this.2.symm

/-- Witness for C4 at the `name TEXT NULL` column of `dsMain`. -/
theorem c4_nullable_alternation_witness :
    ∃ d, dsMain.decode_to_content "text" none = .ok d ∧
      (Content.oneOf [.decodedScalar "text" none, .null]) =
        if true then Content.oneOf [d, .null] else d :=
  c4_nullable_alternation dsMain ⟨"name", "text", true, none⟩ false
    (.oneOf [.decodedScalar "text" none, .null]) rfl

/-- Claim C7: every collection built is an Array whose length node
generates exactly one, wrapping exactly one Object, and every built
`FieldContent` has its optional flag false. -/
theorem c7_collection_shape (ds : DataSource) (cols : List ColumnInfo)
    (coll : Content) (h : collectionTryFrom ds cols = .ok coll) :
    ∃ fields, coll = .array (.numberRangeU64 1 2 1) (.object fields) ∧
      (∀ n, rangeStepContains 1 2 1 n = true ↔ n = 1) ∧
      (∀ e ∈ fields, e.2.1 = false) := by
  obtain ⟨fields, hbf, hcoll⟩ := collectionTryFrom_ok h
  have hbf' : buildFieldsAux ds [] cols = .ok fields := hbf
  refine ⟨fields, hcoll, ?_, ?_⟩
  · intro n
    unfold rangeStepContains
    constructor
    · intro hn
      simp at hn
      omega
    · intro hn
      subst hn
      rfl
  · exact buildFieldsAux_optional hbf' (by intro e he; cases he)

/-- Witness for C7 at the `users` columns of `dsMain`. -/
theorem c7_collection_shape_witness :
    ∃ fields,
      (Content.array (.numberRangeU64 1 2 1) (.object
        [("id", false, .decodedScalar "int4" none),
         ("name", false, .oneOf [.decodedScalar "text" none, .null])])) =
        .array (.numberRangeU64 1 2 1) (.object fields) ∧
      (∀ n, rangeStepContains 1 2 1 n = true ↔ n = 1) ∧
      (∀ e ∈ fields, e.2.1 = false) :=
  c7_collection_shape dsMain
    [⟨"id", "int4", false, none⟩, ⟨"name", "text", true, none⟩]
    (.array (.numberRangeU64 1 2 1) (.object
      [("id", false, .decodedScalar "int4" none),
       ("name", false, .oneOf [.decodedScalar "text" none, .null])])) rfl

/-- Claim C9: the fields of the built Object appear in exactly the order
in which the columns capability returned the columns. -/
theorem c9_field_order (ds : DataSource) (cols : List ColumnInfo)
    (coll : Content) (h : collectionTryFrom ds cols = .ok coll)
    (hnd : (cols.map ColumnInfo.column_name).Nodup) :
    ∃ fields, coll = .array (.numberRangeU64 1 2 1) (.object fields) ∧
      fields.map Prod.fst = cols.map ColumnInfo.column_name := by
  obtain ⟨fields, hbf, hcoll⟩ := collectionTryFrom_ok h
  have hbf' : buildFieldsAux ds [] cols = .ok fields := hbf
  refine ⟨fields, hcoll, ?_⟩
  have horder := buildFieldsAux_order hbf' (fun ci _ => rfl) hnd
  simpa using horder

/-- Witness for C9 at the `users` columns of `dsMain`. -/
theorem c9_field_order_witness :
    ∃ fields,
      (Content.array (.numberRangeU64 1 2 1) (.object
        [("id", false, .decodedScalar "int4" none),
         ("name", false, .oneOf [.decodedScalar "text" none, .null])])) =
        .array (.numberRangeU64 1 2 1) (.object fields) ∧
      fields.map Prod.fst =
        ([⟨"id", "int4", false, none⟩,
          ⟨"name", "text", true, none⟩] : List ColumnInfo).map
          ColumnInfo.column_name :=
  c9_field_order dsMain
    [⟨"id", "int4", false, none⟩, ⟨"name", "text", true, none⟩]
    (.array (.numberRangeU64 1 2 1) (.object
      [("id", false, .decodedScalar "int4" none),
       ("name", false, .oneOf [.decodedScalar "text" none, .null])])) rfl
    (by simp)

/-- Claim C5: the import runs exactly the four phases — collections,
primary keys, foreign keys, values — once each in that order over the
shared namespace: a successful import is exactly a successful chain of
the four phases, and the first failing phase's error is returned with no
namespace. -/
theorem c5_pipeline_phases (merge : MergeFn) (ds : DataSource) :
    (∀ ns, build_namespace_import merge ds = .ok ns ↔
      ∃ tables ns₁ ns₂ ns₃,
        ds.get_table_names = .ok tables ∧
        populate_namespace_collections [] tables ds = .ok ns₁ ∧
        populate_namespace_primary_keys ns₁ tables ds = .ok ns₂ ∧
        populate_namespace_foreign_keys ns₂ ds = .ok ns₃ ∧
        (populate_namespace_values merge ns₃ tables ds).1 = .ok ns) ∧
    (∀ e, ds.get_table_names = .error e →
      build_namespace_import merge ds = .error e) ∧
    (∀ tables e, ds.get_table_names = .ok tables →
      populate_namespace_collections [] tables ds = .error e →
      build_namespace_import merge ds = .error e) ∧
    (∀ tables ns₁ e, ds.get_table_names = .ok tables →
      populate_namespace_collections [] tables ds = .ok ns₁ →
      populate_namespace_primary_keys ns₁ tables ds = .error e →
      build_namespace_import merge ds = .error e) ∧
    (∀ tables ns₁ ns₂ e, ds.get_table_names = .ok tables →
      populate_namespace_collections [] tables ds = .ok ns₁ →
      populate_namespace_primary_keys ns₁ tables ds = .ok ns₂ →
      populate_namespace_foreign_keys ns₂ ds = .error e →
      build_namespace_import merge ds = .error e) ∧
    (∀ tables ns₁ ns₂ ns₃ e, ds.get_table_names = .ok tables →
      populate_namespace_collections [] tables ds = .ok ns₁ →
      populate_namespace_primary_keys ns₁ tables ds = .ok ns₂ →
      populate_namespace_foreign_keys ns₂ ds = .ok ns₃ →
      (populate_namespace_values merge ns₃ tables ds).1 = .error e →
      build_namespace_import merge ds = .error e) := by
  refine ⟨fun ns => build_ok_iff, ?_, ?_, ?_, ?_, ?_⟩
  · intro e h
    unfold build_namespace_import
    rw [h]
    rfl
  · intro tables e h h1
    unfold build_namespace_import
    rw [h]
    simp only [exceptBind_ok]
    rw [h1]
    rfl
  · intro tables ns₁ e h h1 h2
    unfold build_namespace_import
    rw [h]
    simp only [exceptBind_ok]
    rw [h1]
    simp only [exceptBind_ok]
    rw [h2]
    rfl
  · intro tables ns₁ ns₂ e h h1 h2 h3
    unfold build_namespace_import
    rw [h]
    simp only [exceptBind_ok]
    rw [h1]
    simp only [exceptBind_ok]
    rw [h2]
    simp only [exceptBind_ok]
    rw [h3]
    rfl
  · intro tables ns₁ ns₂ ns₃ e h h1 h2 h3 h4
    unfold build_namespace_import
    rw [h]
    simp only [exceptBind_ok]
    rw [h1]
    simp only [exceptBind_ok]
    rw [h2]
    simp only [exceptBind_ok]
    rw [h3]
    simp only [exceptBind_ok]
    exact h4

/-- Witness for C5: a failing table listing aborts the import with that
error; the spec §8 scenario runs all four phases to completion. -/
theorem c5_pipeline_phases_witness :
    build_namespace_import idMerge dsNoTables = .error (.capability "tables") ∧
    build_namespace_import idMerge dsMain = .ok mainNs :=
  ⟨(c5_pipeline_phases idMerge dsNoTables).2.1 (.capability "tables") rfl,
   ((c5_pipeline_phases idMerge dsMain).1 mainNs).mpr
     ⟨["users", "orders"], mainNs1, mainNs2, mainNs, rfl, rfl, rfl, rfl, rfl⟩⟩

/-- Claim C8: the values phase sets the sampling seed exactly once, before
any table's samples are fetched, and two runs over the same starting
namespace against data sources that seed and sample identically produce
identical results. -/
theorem c8_seed_once_deterministic (merge : MergeFn) (ns : Namespace)
    (tables : List String) (ds₁ ds₂ : DataSource) :
    (∃ n, (populate_namespace_values merge ns tables ds₁).2 =
      Event.setSeed :: (tables.take n).map Event.getSamples) ∧
    (ds₁.set_seed = ds₂.set_seed →
      ds₁.get_deterministic_samples = ds₂.get_deterministic_samples →
      populate_namespace_values merge ns tables ds₁ =
        populate_namespace_values merge ns tables ds₂) := by
  constructor
  · cases hseed : ds₁.set_seed with
    | error e =>
      refine ⟨0, ?_⟩
      unfold populate_namespace_values
      simp [hseed]
    | ok u =>
      obtain ⟨n, hn⟩ := mergeLoop_trace merge ns tables ds₁
      refine ⟨n, ?_⟩
      unfold populate_namespace_values
      simp [hseed, hn]
  · intro h1 h2
    unfold populate_namespace_values
    rw [h1, mergeLoop_congr merge ns tables ds₁ ds₂ h2]

/-- Witness for C8: `dsMain` and `dsPkFk` seed and sample identically, so
the values phase agrees on them; its trace is the seed event followed by
the sample fetches. -/
theorem c8_seed_once_deterministic_witness :
    populate_namespace_values idMerge [] ["users"] dsMain =
      populate_namespace_values idMerge [] ["users"] dsPkFk ∧
    ∃ n, (populate_namespace_values idMerge [] ["users"] dsMain).2 =
      Event.setSeed :: ((["users"] : List String).take n).map
        Event.getSamples :=
  ⟨(c8_seed_once_deterministic idMerge [] ["users"] dsMain dsPkFk).2 rfl rfl,
   (c8_seed_once_deterministic idMerge [] ["users"] dsMain dsPkFk).1⟩

/-- Claim C1 as stated is false: with two foreign-key edges sharing the
source `a.x` (targets `b.y` then `c.z`), the completed import leaves
`a.content.x` referencing only the second target, so the first edge's node
is not a Reference to that edge's target. -/
theorem c1_counterexample :
    build_namespace_import idMerge dsDoubleFk = .ok doubleFkNs ∧
    dsDoubleFk.get_foreign_keys =
      .ok [⟨"a", "x", "b", "y"⟩, ⟨"a", "x", "c", "z"⟩] ∧
    getSNode doubleFkNs ⟨"a", "x"⟩ ≠ .ok (.sameAs ⟨"b", "y"⟩) := by
  refine ⟨rfl, rfl, ?_⟩
  intro h
  simp [getSNode, doubleFkNs, lookupColl, lookupField] at h

/-- Claim C1 (amended): for every foreign-key edge whose source field's
last occurrence in the edge list carries this edge's target — in
particular whenever no two edges share a source — the node at the source
path after a completed import is a Reference to that target, provided the
sample merge honours the spec §4.4 contract of not overwriting Reference
nodes. -/
theorem c1_fk_reference (merge : MergeFn) (ds : DataSource) (ns : Namespace)
    (fks : List ForeignKey) (fk : ForeignKey)
    (hm : MergePreservesAnnotations merge)
    (h : build_namespace_import merge ds = .ok ns)
    (hfk : ds.get_foreign_keys = .ok fks) (hmem : fk ∈ fks)
    (hlast : lastTargetFor fks fk.from_table fk.from_column =
      some ⟨fk.to_table, fk.to_column⟩) :
    getSNode ns ⟨fk.from_table, fk.from_column⟩ =
      .ok (.sameAs ⟨fk.to_table, fk.to_column⟩) :=
  build_ok_fk_node hm h hfk hlast

/-- Witness for C1 (amended) at the `orders.user_id → users.id` edge of
`dsMain`. -/
theorem c1_fk_reference_witness :
    getSNode mainNs ⟨"orders", "user_id"⟩ = .ok (.sameAs ⟨"users", "id"⟩) :=
  c1_fk_reference idMerge dsMain mainNs
    [⟨"orders", "user_id", "users", "id"⟩]
    ⟨"orders", "user_id", "users", "id"⟩
    idMerge_preserves rfl rfl (by simp) rfl

/-- Claim C2 as stated is false: in `dsPkFk` the column `x` is the single
primary key of table `a`, yet after the completed import `a.content.x` is
a Reference (the foreign-key phase overwrote the identifier), not an
identifier generator. -/
theorem c2_counterexample :
    dsPkFk.get_primary_keys "a" = .ok [⟨"x"⟩] ∧
    build_namespace_import idMerge dsPkFk = .ok pkFkNs ∧
    getSNode pkFkNs ⟨"a", "x"⟩ ≠ .ok .numberIdU64 := by
  refine ⟨rfl, rfl, ?_⟩
  intro h
  simp [getSNode, pkFkNs, lookupColl, lookupField] at h

/-- Claim C2 (amended): for every listed table whose single primary-key
column is not the source of any foreign-key edge, the node at its field
path after a completed import is the unique-identifier generator, provided
the sample merge honours the spec §4.4 contract of not overwriting
identifier nodes. -/
theorem c2_pk_identifier (merge : MergeFn) (ds : DataSource) (ns : Namespace)
    (tables : List String) (fks : List ForeignKey) (t : String)
    (pk : PrimaryKey)
    (hm : MergePreservesAnnotations merge)
    (h : build_namespace_import merge ds = .ok ns)
    (ht : ds.get_table_names = .ok tables) (htm : t ∈ tables)
    (hpk : ds.get_primary_keys t = .ok [pk])
    (hfk : ds.get_foreign_keys = .ok fks)
    (hnone : lastTargetFor fks t pk.column_name = none) :
    getSNode ns ⟨t, pk.column_name⟩ = .ok .numberIdU64 :=
  build_ok_pk_node hm h ht htm hpk hfk hnone

/-- Witness for C2 (amended) at the `users.id` primary key of `dsMain`. -/
theorem c2_pk_identifier_witness :
    getSNode mainNs ⟨"users", "id"⟩ = .ok .numberIdU64 :=
  c2_pk_identifier idMerge dsMain mainNs ["users", "orders"]
    [⟨"orders", "user_id", "users", "id"⟩] "users" ⟨"id"⟩
    idMerge_preserves rfl rfl (by simp) rfl rfl rfl

/-- Claim C10: a column that is both a table's single primary key and the
source of a foreign-key edge ends, after a completed import, at a
Reference to the (last same-source) edge's target — not at an identifier
generator: the foreign-key phase runs after the primary-key phase and
unconditionally replaces the node at the source path. -/
theorem c10_fk_overrides_pk (merge : MergeFn) (ds : DataSource)
    (ns : Namespace) (tables : List String) (fks : List ForeignKey)
    (t : String) (pk : PrimaryKey) (r : FieldRef)
    (hm : MergePreservesAnnotations merge)
    (h : build_namespace_import merge ds = .ok ns)
    (ht : ds.get_table_names = .ok tables) (htm : t ∈ tables)
    (hpk : ds.get_primary_keys t = .ok [pk])
    (hfk : ds.get_foreign_keys = .ok fks)
    (hlast : lastTargetFor fks t pk.column_name = some r) :
    getSNode ns ⟨t, pk.column_name⟩ = .ok (.sameAs r) ∧
      Content.sameAs r ≠ .numberIdU64 :=
  ⟨build_ok_fk_node hm h hfk hlast, by simp⟩

/-- Witness for C10 at `dsPkFk`: `a.x` is `a`'s single primary key and the
source of the edge `a.x → b.y`; after import it is the Reference. -/
theorem c10_fk_overrides_pk_witness :
    getSNode pkFkNs ⟨"a", "x"⟩ = .ok (.sameAs ⟨"b", "y"⟩) ∧
      Content.sameAs ⟨"b", "y"⟩ ≠ .numberIdU64 :=
  c10_fk_overrides_pk idMerge dsPkFk pkFkNs ["a", "b"]
    [⟨"a", "x", "b", "y"⟩] "a" ⟨"x"⟩ ⟨"b", "y"⟩
    idMerge_preserves rfl rfl (by simp) rfl rfl rfl

/-- Claim C3 as stated is false in its success half: `dsBadPk` reports
exactly one primary key for table `t`, yet the primary-key phase (and so
the import) fails, because the reported key column `c` is not among the
table's columns and the field path does not resolve. -/
theorem c3_counterexample :
    dsBadPk.get_primary_keys "t" = .ok [⟨"c"⟩] ∧
    build_namespace_import idMerge dsBadPk =
      .error (.notFound "t.content.c") :=
  ⟨rfl, rfl⟩

/-- Claim C3 (amended): zero reported primary keys make the per-table
primary-key step a successful no-op; exactly one succeeds precisely when
the field path is made of valid identifiers and resolves in the namespace;
two or more make the step fail immediately — before any mutation — with
the unsupported-schema error carrying the key count and table name, and
then no run of the whole import can return a namespace. -/
theorem c3_pk_count (ns : Namespace) (t : String) (ds : DataSource) :
    (ds.get_primary_keys t = .ok [] → primaryKeyStep ns t ds = .ok ns) ∧
    (∀ pk, ds.get_primary_keys t = .ok [pk] →
      ((∃ ns', primaryKeyStep ns t ds = .ok ns') ↔
        (isValidIdent t && isValidIdent pk.column_name) = true ∧
          (getSNode ns ⟨t, pk.column_name⟩).isOk = true)) ∧
    (∀ pks, ds.get_primary_keys t = .ok pks → 2 ≤ pks.length →
      primaryKeyStep ns t ds = .error (.unsupportedSchema pks.length t)) ∧
    (∀ merge tables pks, ds.get_table_names = .ok tables → t ∈ tables →
      ds.get_primary_keys t = .ok pks → 2 ≤ pks.length →
      ∀ ns', build_namespace_import merge ds ≠ .ok ns') := by
  refine ⟨fun h => primaryKeyStep_nopk h, ?_,
    fun pks hpk h2 => primaryKeyStep_composite hpk h2, ?_⟩
  · intro pk hpk
    constructor
    · rintro ⟨ns', hstep⟩
      refine ⟨primaryKeyStep_single_valid hpk hstep, ?_⟩
      exact setSNode_exists_iff.mp ⟨ns', primaryKeyStep_single hpk hstep⟩
    · rintro ⟨hvalid, hok⟩
      obtain ⟨ns', hset⟩ := setSNode_exists_iff.mpr hok
      refine ⟨ns', ?_⟩
      unfold primaryKeyStep
      rw [hpk]
      simp only [exceptBind_ok]
      rw [if_neg (by simp)]
      simp only [List.head?]
      rw [fieldRefNew_valid hvalid]
      simp only [exceptBind_ok]
      exact hset
  · intro merge tables pks htab htm hpk h2 ns' hbuild
    obtain ⟨tables', ns₁, ns₂, ns₃, ht', h1', h2', h3', h4'⟩ :=
      build_ok_iff.mp hbuild
    rw [htab] at ht'
    cases ht'
    exact pk_phase_composite_fails htm hpk h2 ns₂ h2'

/-- Witness for C3 (amended): the zero-key no-op on `dsDoubleFk.a`, the
composite-key failure on `dsCompositePk.t`, and the resulting
impossibility of a successful import. -/
theorem c3_pk_count_witness :
    primaryKeyStep [] "a" dsDoubleFk = .ok [] ∧
    primaryKeyStep [] "t" dsCompositePk =
      .error (.unsupportedSchema 2 "t") ∧
    build_namespace_import idMerge dsCompositePk ≠ .ok [] :=
  ⟨(c3_pk_count [] "a" dsDoubleFk).1 rfl,
   (c3_pk_count [] "t" dsCompositePk).2.2.1 [⟨"a"⟩, ⟨"b"⟩] rfl (by decide),
   (c3_pk_count [] "t" dsCompositePk).2.2.2 idMerge ["t"] [⟨"a"⟩, ⟨"b"⟩]
     rfl (by simp) rfl (by decide) []⟩

/-- Claim C6 as stated is false: `dsDangling` declares a foreign key
`a.x → b.y` although table `b` is never imported; the import nevertheless
succeeds and installs at `a.content.x` a Reference whose target path does
not resolve — a dangling reference. The linker parses the target path but
never resolves it. -/
theorem c6_counterexample :
    build_namespace_import idMerge dsDangling = .ok danglingNs ∧
    getSNode danglingNs ⟨"a", "x"⟩ = .ok (.sameAs ⟨"b", "y"⟩) ∧
    (getSNode danglingNs ⟨"b", "y"⟩).isOk = false :=
  ⟨rfl, rfl, rfl⟩

/-- Claim C6 (amended): the linker itself performs no resolution check on
the target path, so a Reference it installs resolves at the time of
installation (the end of the foreign-key phase) exactly under catalog
consistency: the target path resolves if and only if the edge's target
table is among the imported tables and its target column among that
table's columns. -/
theorem c6_reference_resolves (ds : DataSource) (tables : List String)
    (ns₁ ns₂ ns₃ : Namespace) (fks : List ForeignKey) (fk : ForeignKey)
    (h1 : populate_namespace_collections [] tables ds = .ok ns₁)
    (h2 : populate_namespace_primary_keys ns₁ tables ds = .ok ns₂)
    (h3 : populate_namespace_foreign_keys ns₂ ds = .ok ns₃)
    (hfk : ds.get_foreign_keys = .ok fks) (hmem : fk ∈ fks) :
    (getSNode ns₃ ⟨fk.to_table, fk.to_column⟩).isOk = true ↔
      fk.to_table ∈ tables ∧
      ∃ cols, ds.get_columns_infos fk.to_table = .ok cols ∧
        fk.to_column ∈ cols.map ColumnInfo.column_name := by
  have hlink := fk_phase_link h3 hfk
  have hchain : (getSNode ns₃ ⟨fk.to_table, fk.to_column⟩).isOk =
      (getSNode ns₁ ⟨fk.to_table, fk.to_column⟩).isOk := by
    rw [linkForeignKeys_pres_isOk hlink ⟨fk.to_table, fk.to_column⟩,
      pk_phase_pres_isOk h2 ⟨fk.to_table, fk.to_column⟩]
  rw [hchain]
  constructor
  · intro hok
    exact coll_phase_field_conv h1 hok rfl
  · rintro ⟨htab, cols, hcols, hc⟩
    obtain ⟨ci, hci, hname⟩ := List.mem_map.mp hc
    have h0 := coll_phase_field_exists h1 htab hcols hci
    rw [hname] at h0
    exact h0

/-- Witness for C6 (amended) at the `orders.user_id → users.id` edge of
`dsMain`: the target `users.id` resolves at the end of the foreign-key
phase, and the equivalence with catalog consistency holds there. -/
theorem c6_reference_resolves_witness :
    (getSNode mainNs ⟨"users", "id"⟩).isOk = true ↔
      "users" ∈ ["users", "orders"] ∧
      ∃ cols, dsMain.get_columns_infos "users" = .ok cols ∧
        "id" ∈ cols.map ColumnInfo.column_name :=
  c6_reference_resolves dsMain ["users", "orders"] mainNs1 mainNs2 mainNs
    [⟨"orders", "user_id", "users", "id"⟩]
    ⟨"orders", "user_id", "users", "id"⟩
    rfl rfl rfl rfl (by simp)

end SynthImport
